import Mathlib

/-!
# Verification of the multi-layer cache manager

Shallow embedding of `src/src/backend/caching/advanced_cache_manager.py`
(class `AdvancedCacheManager`) and proofs about its behaviour.

Python values that can travel through the cache are embedded as the
inductive type `Value`; Python `None` is `Value.none`.  The external
library functions the manager calls (`pickle.dumps` / `pickle.loads`,
`zlib.compress` / `zlib.decompress`, `hashlib.sha256`) are modelled by
executable Lean functions that are faithful to the observable contract
the manager relies on; `hashlib.sha256` is implemented bit-for-bit.
-/

set_option linter.unusedVariables false
set_option maxRecDepth 1000000

/-- Embedding of the Python values the cache serializes.  `Value.none`
plays the role of Python `None` (which the manager also uses as its
cache-miss sentinel). -/
inductive Value where
  | none : Value
  | int (n : Int) : Value
  | bool (b : Bool) : Value
  | str (s : String) : Value
  | list (xs : List Value) : Value
deriving Repr

mutual

/-- Structural equality test on embedded values. -/
def vbeq : Value → Value → Bool
  | .none, .none => true
  | .int n, .int m => n == m
  | .bool a, .bool b => a == b
  | .str s, .str t => s == t
  | .list xs, .list ys => lbeq xs ys
  | _, _ => false

/-- Structural equality test on lists of embedded values. -/
def lbeq : List Value → List Value → Bool
  | [], [] => true
  | x :: xs, y :: ys => vbeq x y && lbeq xs ys
  | _, _ => false

end

theorem vbeq_iff_aux : ∀ n : Nat,
    (∀ a b : Value, sizeOf a ≤ n → (vbeq a b = true ↔ a = b)) ∧
    (∀ xs ys : List Value, sizeOf xs ≤ n → (lbeq xs ys = true ↔ xs = ys)) := by
  intro n
  induction n with
  | zero =>
    constructor
    · intro a b ha; cases a <;> simp_all
    · intro xs ys hxs; cases xs <;> simp_all
  | succ n ih =>
    constructor
    · intro a b ha
      cases a with
      | none => cases b <;> simp [vbeq]
      | int m => cases b <;> simp [vbeq]
      | bool c => cases b <;> simp [vbeq]
      | str s => cases b <;> simp [vbeq]
      | list xs =>
        cases b with
        | list ys =>
          have hs : sizeOf xs ≤ n := by simp at ha; omega
          simp [vbeq, ih.2 xs ys hs]
        | none => simp [vbeq]
        | int m => simp [vbeq]
        | bool c => simp [vbeq]
        | str t => simp [vbeq]
    · intro xs ys hxs
      cases xs with
      | nil => cases ys <;> simp [lbeq]
      | cons x xs' =>
        cases ys with
        | nil => simp [lbeq]
        | cons y ys' =>
          have h1 : sizeOf x ≤ n := by simp at hxs; omega
          have h2 : sizeOf xs' ≤ n := by simp at hxs; omega
          simp [lbeq, ih.1 x y h1, ih.2 xs' ys' h2]

theorem vbeq_iff (a b : Value) : vbeq a b = true ↔ a = b :=
  (vbeq_iff_aux (sizeOf a)).1 a b le_rfl

instance : DecidableEq Value := fun a b => decidable_of_iff _ (vbeq_iff a b)

/-! ## Model of `pickle.dumps` / `pickle.loads`

`pickle` is a Python standard-library serializer (not repository code).
The model keeps the properties the cache manager relies on: the output
is a deterministic byte sequence fully determined by the value's
structure, container elements are emitted in order (CPython dicts and
hence `**kwargs` serialize in insertion order), and `loads` inverts
`dumps`.  "Bytes" are modelled as `Nat` atoms; scalar payloads (an
integer magnitude, a string length, a character code) occupy one atom. -/

mutual

/-- Model of `pickle.dumps` on a single `Value` (tagged serialization). -/
def pickleDumps : Value → List Nat
  | .none => [0]
  | .int n => [1, if n < 0 then 1 else 0, n.natAbs]
  | .bool b => [2, if b then 1 else 0]
  | .str s => 3 :: s.data.length :: s.data.map Char.toNat
  | .list xs => 4 :: pickleListDumps xs ++ [5]

/-- Serialization of a sequence of values, element by element in order. -/
def pickleListDumps : List Value → List Nat
  | [] => []
  | v :: vs => pickleDumps v ++ pickleListDumps vs

end

mutual

/-- Fuel-indexed parser inverting `pickleDumps` (model of `pickle.loads`).
Returns the parsed value and the unconsumed remainder. -/
def parseVal : Nat → List Nat → Option (Value × List Nat)
  | 0, _ => Option.none
  | _ + 1, [] => Option.none
  | fuel + 1, t :: rest =>
    if t = 0 then some (.none, rest)
    else if t = 1 then
      match rest with
      | s :: m :: rest2 => some (.int (if s = 1 then -(m : Int) else (m : Int)), rest2)
      | _ => Option.none
    else if t = 2 then
      match rest with
      | b :: rest2 => some (.bool (b = 1), rest2)
      | _ => Option.none
    else if t = 3 then
      match rest with
      | n :: rest2 =>
        if n ≤ rest2.length then
          some (.str (String.mk ((rest2.take n).map Char.ofNat)), rest2.drop n)
        else Option.none
      | _ => Option.none
    else if t = 4 then
      match parseItems fuel rest with
      | some (xs, rest2) => some (.list xs, rest2)
      | _ => Option.none
    else Option.none

/-- Parses serialized values until the closing tag `5`. -/
def parseItems : Nat → List Nat → Option (List Value × List Nat)
  | 0, _ => Option.none
  | _ + 1, [] => Option.none
  | fuel + 1, t :: rest =>
    if t = 5 then some ([], rest)
    else
      match parseVal fuel (t :: rest) with
      | some (v, rest2) =>
        match parseItems fuel rest2 with
        | some (vs, rest3) => some (v :: vs, rest3)
        | _ => Option.none
      | _ => Option.none

end

mutual

/-- Fuel sufficient for `parseVal` to consume the serialization of `v`. -/
def valFuel : Value → Nat
  | .list xs => itemsFuel xs + 1
  | _ => 1

/-- Fuel sufficient for `parseItems` to consume a serialized sequence. -/
def itemsFuel : List Value → Nat
  | [] => 1
  | v :: vs => max (valFuel v) (itemsFuel vs) + 1

end

/-- Every serialization is nonempty and starts with a tag below 5. -/
theorem pickleDumps_head (v : Value) :
    ∃ t tl, pickleDumps v = t :: tl ∧ t < 5 := by
  cases v <;> simp [pickleDumps]

theorem valFuel_pos (v : Value) : 1 ≤ valFuel v := by
  cases v <;> simp [valFuel]

theorem itemsFuel_pos (xs : List Value) : 1 ≤ itemsFuel xs := by
  cases xs <;> simp [itemsFuel]

/-- Core round-trip: with enough fuel, parsing a serialization returns the
original value and leaves the remainder untouched. -/
theorem parse_round : ∀ fuel : Nat,
    (∀ v rest, valFuel v ≤ fuel →
      parseVal fuel (pickleDumps v ++ rest) = some (v, rest)) ∧
    (∀ xs rest, itemsFuel xs ≤ fuel →
      parseItems fuel (pickleListDumps xs ++ 5 :: rest) = some (xs, rest)) := by
  intro fuel
  induction fuel with
  | zero =>
    constructor
    · intro v rest h; have := valFuel_pos v; omega
    · intro xs rest h; have := itemsFuel_pos xs; omega
  | succ f ih =>
    constructor
    · intro v rest h
      cases v with
      | none => simp [pickleDumps, parseVal]
      | int n =>
        by_cases hn : n < 0
        · have habs : (n.natAbs : Int) = -n := by omega
          simp only [pickleDumps, if_pos hn, List.cons_append, parseVal]
          simp [habs]
        · simp only [pickleDumps, if_neg hn, List.cons_append, parseVal]
          simp
          omega
      | bool b =>
        cases b <;> simp [pickleDumps, parseVal]
      | str s =>
        have hlen : (s.data.map Char.toNat).length = s.data.length := by simp
        have htake : ((s.data.map Char.toNat) ++ rest).take s.data.length
            = s.data.map Char.toNat := by
          rw [← hlen]; exact List.take_left _ _
        have hdrop : ((s.data.map Char.toNat) ++ rest).drop s.data.length
            = rest := by
          rw [← hlen]; exact List.drop_left _ _
        have hguard : s.data.length ≤ ((s.data.map Char.toNat) ++ rest).length := by
          simp
        have hmap : ∀ l : List Char, List.map (Char.ofNat ∘ Char.toNat) l = l := by
          intro l
          induction l with
          | nil => rfl
          | cons c cs ihc => simp [Function.comp, Char.ofNat_toNat, ihc]
        simp [pickleDumps, parseVal, htake, hdrop, hguard, List.map_map, hmap]
      | list xs =>
        have hx : itemsFuel xs ≤ f := by simp [valFuel] at h; omega
        have h2 := ih.2 xs rest hx
        simp [pickleDumps, parseVal, h2]
    · intro xs rest h
      cases xs with
      | nil => simp [pickleListDumps, parseItems]
      | cons v vs =>
        have hv : valFuel v ≤ f := by
          simp [itemsFuel] at h; omega
        have hvs : itemsFuel vs ≤ f := by
          simp [itemsFuel] at h; omega
        obtain ⟨t, tl, hd, hlt⟩ := pickleDumps_head v
        simp only [pickleListDumps, List.append_assoc, hd, List.cons_append,
          parseItems]
        rw [if_neg (by omega)]
        rw [show t :: (tl ++ (pickleListDumps vs ++ 5 :: rest))
            = pickleDumps v ++ (pickleListDumps vs ++ 5 :: rest) by
          rw [hd]; simp]
        rw [ih.1 v _ hv]
        simp [ih.2 vs rest hvs]

/-- The fuel needed to parse a serialization is bounded by its length. -/
theorem fuel_le_length_aux : ∀ n : Nat,
    (∀ v : Value, sizeOf v ≤ n → valFuel v ≤ (pickleDumps v).length) ∧
    (∀ xs : List Value, sizeOf xs ≤ n →
      itemsFuel xs ≤ (pickleListDumps xs).length + 1) := by
  intro n
  induction n with
  | zero =>
    constructor
    · intro v hv; cases v <;> simp_all
    · intro xs hxs; cases xs <;> simp_all
  | succ n ih =>
    constructor
    · intro v hv
      cases v with
      | none => simp [valFuel, pickleDumps]
      | int m => simp [valFuel, pickleDumps]
      | bool b => simp [valFuel, pickleDumps]
      | str s => simp [valFuel, pickleDumps]
      | list xs =>
        have hs : sizeOf xs ≤ n := by
          have := Value.list.sizeOf_spec xs; omega
        have h2 := ih.2 xs hs
        simp only [valFuel, pickleDumps, List.length_cons, List.length_append]
        simp at h2 ⊢
        omega
    · intro xs hxs
      cases xs with
      | nil => simp [itemsFuel, pickleListDumps]
      | cons v vs =>
        have h1 : sizeOf v ≤ n := by
          have := List.cons.sizeOf_spec v vs; omega
        have h2 : sizeOf vs ≤ n := by
          have := List.cons.sizeOf_spec v vs; omega
        have hv := ih.1 v h1
        have hvs := ih.2 vs h2
        obtain ⟨t, tl, hd, _⟩ := pickleDumps_head v
        have hne : 1 ≤ (pickleDumps v).length := by rw [hd]; simp
        simp only [itemsFuel, pickleListDumps, List.length_append]
        omega

/-- Model of `pickle.loads`: parse the whole byte sequence; any leftover
or malformed input is a deserialization error (`Option.none`). -/
def pickleLoads (bs : List Nat) : Option Value :=
  match parseVal (bs.length + 1) bs with
  | some (v, []) => some v
  | _ => Option.none

/-- `pickle.loads (pickle.dumps v) = v` — the serializer round-trip. -/
theorem pickleLoads_dumps (v : Value) : pickleLoads (pickleDumps v) = some v := by
  have hf : valFuel v ≤ (pickleDumps v).length + 1 := by
    have := (fuel_le_length_aux (sizeOf v)).1 v le_rfl
    omega
  have h := (parse_round ((pickleDumps v).length + 1)).1 v [] hf
  rw [List.append_nil] at h
  simp [pickleLoads, h]

/-! ## Model of `zlib.compress` / `zlib.decompress`

`zlib` is an external compression library.  It is modelled by an
executable run-length coder: what the cache manager relies on is only
that compression is a deterministic, invertible transformation of the
byte stream and that decompressing corrupt data fails. -/

/-- Model of `zlib.compress`: run-length encode the byte stream. -/
def rleEncode : List Nat → List (Nat × Nat)
  | [] => []
  | b :: rest =>
    match rleEncode rest with
    | [] => [(1, b)]
    | (n, c) :: tail =>
      if c = b then (n + 1, c) :: tail else (1, b) :: (n, c) :: tail

/-- Expansion of a run-length code back into the byte stream. -/
def rleDecode : List (Nat × Nat) → List Nat
  | [] => []
  | (n, c) :: tail => List.replicate n c ++ rleDecode tail

theorem rleEncode_nil_iff (l : List Nat) : rleEncode l = [] ↔ l = [] := by
  constructor
  · intro h
    cases l with
    | nil => rfl
    | cons b rest =>
      simp only [rleEncode] at h
      cases hE : rleEncode rest with
      | nil => rw [hE] at h; simp at h
      | cons p tail =>
        obtain ⟨n, c⟩ := p
        rw [hE] at h
        by_cases hc : c = b <;> simp [hc] at h
  · intro h; rw [h]; rfl

theorem rleDecode_encode (l : List Nat) : rleDecode (rleEncode l) = l := by
  induction l with
  | nil => rfl
  | cons b rest ih =>
    simp only [rleEncode]
    cases hE : rleEncode rest with
    | nil =>
      have hr : rest = [] := (rleEncode_nil_iff rest).mp hE
      simp [rleDecode, hr]
    | cons p tail =>
      obtain ⟨n, c⟩ := p
      rw [hE] at ih
      by_cases hc : c = b
      · subst hc
        simp only [if_pos rfl, rleDecode, List.replicate_succ] at ih ⊢
        simp [ih]
      · simp only [if_neg hc, rleDecode, List.replicate_succ] at ih ⊢
        simp [ih]

/-- Flatten run-length pairs into the compressed byte stream. -/
def flattenPairs : List (Nat × Nat) → List Nat
  | [] => []
  | (n, c) :: tail => n :: c :: flattenPairs tail

/-- Re-group a compressed byte stream into run-length pairs; corrupt
(odd-length) input is a decompression error. -/
def unflattenPairs : List Nat → Option (List (Nat × Nat))
  | [] => some []
  | n :: c :: rest => (unflattenPairs rest).map (fun ps => (n, c) :: ps)
  | _ => Option.none

theorem unflattenPairs_flatten (ps : List (Nat × Nat)) :
    unflattenPairs (flattenPairs ps) = some ps := by
  induction ps with
  | nil => rfl
  | cons p tail ih =>
    obtain ⟨n, c⟩ := p
    simp [flattenPairs, unflattenPairs, ih]

/-- Model of `zlib.compress`. -/
def zlibCompress (bs : List Nat) : List Nat := flattenPairs (rleEncode bs)

/-- Model of `zlib.decompress`; `Option.none` models the `zlib.error`
raised on corrupt input. -/
def zlibDecompress (bs : List Nat) : Option (List Nat) :=
  (unflattenPairs bs).map rleDecode

theorem zlibDecompress_compress (bs : List Nat) :
    zlibDecompress (zlibCompress bs) = some bs := by
  simp [zlibCompress, zlibDecompress, unflattenPairs_flatten, rleDecode_encode]

/-! ## The manager's codec (`_compress_data` / `_decompress_data`) -/

/-- `AdvancedCacheManager._compress_data`:
`zlib.compress(pickle.dumps(data))`. -/
def compress_data (v : Value) : List Nat := zlibCompress (pickleDumps v)

/-- `AdvancedCacheManager._decompress_data`:
`pickle.loads(zlib.decompress(compressed_data))`; `Option.none` models
the exception raised on corrupt input. -/
def decompress_data (bs : List Nat) : Option Value :=
  match zlibDecompress bs with
  | some raw => pickleLoads raw
  | Option.none => Option.none

example : decompress_data (compress_data (.int 7)) = some (.int 7) := by decide
example : decompress_data (compress_data .none) = some .none := by decide
example :
    decompress_data (compress_data (.list [.str "ab", .bool true, .int (-3)]))
      = some (.list [.str "ab", .bool true, .int (-3)]) := by decide

/-! ## SHA-256 (model of `hashlib.sha256`)

A bit-for-bit executable implementation of FIPS 180-4 SHA-256 over a
list of bytes, validated below against the standard test vector. -/

/-- Truncation to a 32-bit word. -/
def w32 (n : Nat) : Nat := n % 4294967296

/-- 32-bit right rotation. -/
def rotr (k x : Nat) : Nat := w32 ((x >>> k) ||| (x <<< (32 - k)))

def bsig0 (x : Nat) : Nat := (rotr 2 x) ^^^ (rotr 13 x) ^^^ (rotr 22 x)
def bsig1 (x : Nat) : Nat := (rotr 6 x) ^^^ (rotr 11 x) ^^^ (rotr 25 x)
def ssig0 (x : Nat) : Nat := (rotr 7 x) ^^^ (rotr 18 x) ^^^ (x >>> 3)
def ssig1 (x : Nat) : Nat := (rotr 17 x) ^^^ (rotr 19 x) ^^^ (x >>> 10)
def chF (e f g : Nat) : Nat := (e &&& f) ^^^ ((e ^^^ 4294967295) &&& g)
def majF (a b c : Nat) : Nat := (a &&& b) ^^^ (a &&& c) ^^^ (b &&& c)

/-- `n` has no divisor `d` with `start ≤ d` and `d * d ≤ n` (trial
division with fuel). -/
def noDivisorFrom : Nat → Nat → Nat → Bool
  | 0, _, _ => true
  | fuel + 1, n, start =>
    if n < start * start then true
    else decide (n % start ≠ 0) && noDivisorFrom fuel n (start + 1)

def isPrime (n : Nat) : Bool := 2 ≤ n && noDivisorFrom n n 2

/-- The first `k` primes (all primes needed here lie below 400). -/
def firstPrimes (k : Nat) : List Nat :=
  ((List.range 400).filter isPrime).take k

/-- Largest `r` with `r ^ e ≤ n`, by binary search on `[lo, hi)`
maintaining `lo ^ e ≤ n < hi ^ e`. -/
def irootGo (e n : Nat) : Nat → Nat → Nat → Nat
  | 0, lo, _ => lo
  | fuel + 1, lo, hi =>
    if hi ≤ lo + 1 then lo
    else
      let mid := (lo + hi) / 2
      if mid ^ e ≤ n then irootGo e n fuel mid hi else irootGo e n fuel lo mid

/-- Integer `e`-th root: the largest `r` with `r ^ e ≤ n`. -/
def iroot (e n : Nat) : Nat := irootGo e n 200 0 (n + 1)

/-- The SHA-256 round constants: the first 32 bits of the fractional
parts of the cube roots of the first 64 primes (FIPS 180-4 section
4.2.2), obtained here from integer cube roots of `p * 2 ^ 96`. -/
def sha256K : List Nat :=
  (firstPrimes 64).map (fun p => iroot 3 (p * 2 ^ 96) % 2 ^ 32)

/-- The eight 32-bit working variables of the compression function. -/
structure Hash8 where
  a : Nat
  b : Nat
  c : Nat
  d : Nat
  e : Nat
  f : Nat
  g : Nat
  hh : Nat
deriving Repr, DecidableEq

/-- The SHA-256 initial hash value: the first 32 bits of the
fractional parts of the square roots of the first 8 primes (FIPS 180-4
section 5.3.3), obtained from integer square roots of `p * 2 ^ 64`. -/
def sha256H0 : Hash8 :=
  match (firstPrimes 8).map (fun p => iroot 2 (p * 2 ^ 64) % 2 ^ 32) with
  | [a, b, c, d, e, f, g, hh] => ⟨a, b, c, d, e, f, g, hh⟩
  | _ => ⟨0, 0, 0, 0, 0, 0, 0, 0⟩

/-- Merkle–Damgard padding: append `0x80`, zeros, and the 64-bit
big-endian bit length, up to a 64-byte boundary. -/
def sha256pad (msg : List Nat) : List Nat :=
  let L := msg.length
  let padlen := (64 + 56 - ((L + 1) % 64)) % 64
  let bl := L * 8
  msg ++ 128 :: List.replicate padlen 0 ++
    [(bl >>> 56) % 256, (bl >>> 48) % 256, (bl >>> 40) % 256, (bl >>> 32) % 256,
     (bl >>> 24) % 256, (bl >>> 16) % 256, (bl >>> 8) % 256, bl % 256]

/-- Split into 64-byte blocks (fuel-indexed so it evaluates in the kernel). -/
def chunk64Go : Nat → List Nat → List (List Nat)
  | 0, _ => []
  | _ + 1, [] => []
  | fuel + 1, l => l.take 64 :: chunk64Go fuel (l.drop 64)

def chunk64 (l : List Nat) : List (List Nat) := chunk64Go l.length l

/-- Group four big-endian bytes into one 32-bit word. -/
def toWords : List Nat → List Nat
  | b0 :: b1 :: b2 :: b3 :: rest =>
    (b0 * 16777216 + b1 * 65536 + b2 * 256 + b3) :: toWords rest
  | _ => []

/-- One step of the message-schedule extension. -/
def schedStep (ws : List Nat) : List Nat :=
  let L := ws.length
  ws ++ [w32 (ssig1 (ws.getD (L - 2) 0) + ws.getD (L - 7) 0 +
              ssig0 (ws.getD (L - 15) 0) + ws.getD (L - 16) 0)]

/-- The 64-word message schedule of one block. -/
def schedule (block : List Nat) : List Nat :=
  (List.range 48).foldl (fun ws _ => schedStep ws) (toWords block)

/-- One round of the SHA-256 compression function. -/
def round1 (st : Hash8) (kw : Nat × Nat) : Hash8 :=
  let t1 := w32 (st.hh + bsig1 st.e + chF st.e st.f st.g + kw.1 + kw.2)
  let t2 := w32 (bsig0 st.a + majF st.a st.b st.c)
  ⟨w32 (t1 + t2), st.a, st.b, st.c, w32 (st.d + t1), st.e, st.f, st.g⟩

/-- Process one 64-byte block. -/
def processBlock (st : Hash8) (block : List Nat) : Hash8 :=
  let ws := schedule block
  let fin := (sha256K.zip ws).foldl round1 st
  ⟨w32 (st.a + fin.a), w32 (st.b + fin.b), w32 (st.c + fin.c), w32 (st.d + fin.d),
   w32 (st.e + fin.e), w32 (st.f + fin.f), w32 (st.g + fin.g), w32 (st.hh + fin.hh)⟩

/-- The eight 32-bit words of the SHA-256 digest of a byte sequence. -/
def sha256words (msg : List Nat) : List Nat :=
  let fin := (chunk64 (sha256pad msg)).foldl processBlock sha256H0
  [fin.a, fin.b, fin.c, fin.d, fin.e, fin.f, fin.g, fin.hh]

def hexDigit (n : Nat) : Char :=
  if n < 10 then Char.ofNat (48 + n) else Char.ofNat (87 + n)

def wordHex (w : Nat) : List Char :=
  [hexDigit ((w >>> 28) % 16), hexDigit ((w >>> 24) % 16),
   hexDigit ((w >>> 20) % 16), hexDigit ((w >>> 16) % 16),
   hexDigit ((w >>> 12) % 16), hexDigit ((w >>> 8) % 16),
   hexDigit ((w >>> 4) % 16), hexDigit (w % 16)]

/-- Model of `hashlib.sha256(...).hexdigest()`: the 64-character
lowercase hex digest. -/
def sha256hex (msg : List Nat) : String :=
  String.mk (((sha256words msg).map wordHex).foldr (· ++ ·) [])

/-- FIPS 180-4 test vector: the digest of the ASCII bytes of "abc". -/
theorem sha256hex_abc_vector : sha256hex [97, 98, 99]
    = "ba7816bf8f01cfea414140de5dae2223b00361a396177a9cb410ff61f20015ad" := by
  decide

/-! ## Key derivation (`_generate_cache_key`)

`_generate_cache_key(func_name, *args, **kwargs)` computes
`hashlib.sha256(f"{func_name}:{pickle.dumps((args, kwargs))}".encode()).hexdigest()`.
CPython keyword arguments are an insertion-ordered dict, embedded here
as an association list `List (String × Value)` in insertion order. -/

/-- Renders one abstract serialization atom as an injective byte
sequence (little-endian base-255 digits, `255`-terminated), so that the
abstract atom stream can be fed to the byte-level hash.  Models the
injective textual rendering that the source's f-string applies to the
pickled bytes. -/
def natDigits255Go : Nat → Nat → List Nat
  | 0, _ => []
  | _ + 1, 0 => []
  | fuel + 1, n => (n % 255) :: natDigits255Go fuel (n / 255)

def atomBytes (n : Nat) : List Nat := natDigits255Go n n ++ [255]

/-- Injective byte rendering of an atom stream. -/
def atomsToBytes (atoms : List Nat) : List Nat :=
  atoms.foldr (fun a acc => atomBytes a ++ acc) []

/-- Model of `pickle.dumps((args, kwargs))`: the positional-argument
tuple followed by the keyword-argument dict, whose entries are
serialized in insertion order (CPython dicts preserve insertion order,
and `pickle` emits entries in that order). -/
def pickleDumpsCall (args : List Value) (kwargs : List (String × Value)) : List Nat :=
  6 :: pickleListDumps args ++ [5] ++
    7 :: (kwargs.foldr (fun kv acc => pickleDumps (.str kv.1) ++ pickleDumps kv.2 ++ acc) []) ++ [5]

/-- The byte string `f"{func_name}:{serialized_args}".encode()`: function
name, a colon (byte 58), then the rendering of the pickled call. -/
def keyMaterial (funcName : String) (serialized : List Nat) : List Nat :=
  atomsToBytes (funcName.data.map Char.toNat) ++ 58 :: atomsToBytes serialized

/-- `AdvancedCacheManager._generate_cache_key`: SHA-256 hex digest of the
function name and the pickled `(args, kwargs)` pair. -/
def generate_cache_key (funcName : String) (args : List Value)
    (kwargs : List (String × Value)) : String :=
  sha256hex (keyMaterial funcName (pickleDumpsCall args kwargs))

/-! ## Association tables

Python dicts (the in-memory table, the modelled Redis store, and the
disk directory listing) are embedded as association lists.  A binding's
position in the table is unobservable — every observation goes through
`alookup` — so assignment places the new binding in front. -/

/-- Lookup (model of `d.get(k)` / `os.path.exists` plus read). -/
def alookup {α : Type} (k : String) : List (String × α) → Option α
  | [] => Option.none
  | (k2, v) :: rest => if k2 = k then some v else alookup k rest

/-- Removal of a key (model of `del d[k]` / `d.pop(k, None)` /
`os.remove`); removing an absent key is a no-op. -/
def aerase {α : Type} (k : String) : List (String × α) → List (String × α)
  | [] => []
  | (k2, v) :: rest =>
    if k2 = k then aerase k rest else (k2, v) :: aerase k rest

/-- Assignment `d[k] = v` (and file overwrite). -/
def aset {α : Type} (k : String) (v : α) (l : List (String × α)) : List (String × α) :=
  (k, v) :: aerase k l

theorem alookup_aerase_self {α : Type} (k : String) (l : List (String × α)) :
    alookup k (aerase k l) = Option.none := by
  induction l with
  | nil => rfl
  | cons p rest ih =>
    obtain ⟨k2, v⟩ := p
    by_cases h : k2 = k
    · simp [aerase, h, ih]
    · simp [aerase, h, alookup, ih]

theorem alookup_aerase_ne {α : Type} {k k2 : String} (h : k2 ≠ k)
    (l : List (String × α)) : alookup k2 (aerase k l) = alookup k2 l := by
  induction l with
  | nil => rfl
  | cons p rest ih =>
    obtain ⟨k3, v⟩ := p
    by_cases h3 : k3 = k
    · subst h3
      simp [aerase, alookup, Ne.symm h, ih]
    · by_cases h4 : k3 = k2
      · subst h4
        simp [aerase, h3, alookup]
      · simp [aerase, h3, alookup, h4, ih]

theorem alookup_aset_self {α : Type} (k : String) (v : α) (l : List (String × α)) :
    alookup k (aset k v l) = some v := by
  simp [aset, alookup]

theorem alookup_aset_ne {α : Type} {k k2 : String} (h : k2 ≠ k) (v : α)
    (l : List (String × α)) : alookup k2 (aset k v l) = alookup k2 l := by
  simp [aset, alookup, Ne.symm h, alookup_aerase_ne h]

theorem aerase_absent {α : Type} {k : String} {l : List (String × α)}
    (h : alookup k l = Option.none) : aerase k l = l := by
  induction l with
  | nil => rfl
  | cons p rest ih =>
    obtain ⟨k2, v⟩ := p
    by_cases h2 : k2 = k
    · simp [alookup, h2] at h
    · simp [alookup, h2] at h
      simp [aerase, h2, ih h]

/-! ## The manager's state and environment -/

/-- One entry of the in-memory table `memory_cache` (also used for the
modelled Redis store): compressed payload and absolute expiry. -/
structure CacheEntry where
  value : List Nat
  expiry : Nat
deriving DecidableEq, Repr

/-- Contents of one file in the disk cache directory.  `empty` is a
file that was created and truncated by `open(path, 'wb')` but never
written; `entry` is a well-formed `{"value": ..., "expiry": ...}` JSON
document (the `latin-1` text round-trip of the payload bytes is the
identity, since latin-1 is a byte/codepoint bijection and JSON
round-trips strings); `corrupt` is any unparsable content. -/
inductive DiskFile where
  | empty : DiskFile
  | entry (value : List Nat) (expiry : Nat) : DiskFile
  | corrupt : DiskFile
deriving DecidableEq, Repr

/-- The manager's mutable state together with its two external stores:
the in-memory table, the Redis client (`redisAvail = false` models
`self.redis_client = None`) and the Redis server's keyspace, and the
disk cache directory. -/
structure CacheState where
  memory : List (String × CacheEntry)
  redisAvail : Bool
  redis : List (String × CacheEntry)
  disk : List (String × DiskFile)
deriving DecidableEq, Repr

/-- Behaviour of the external world: whether the Redis server is
reachable at construction, and whether individual Redis operations
fail transiently. -/
structure Env where
  redisConnects : Bool
  redisGetFails : Bool
  redisSetFails : Bool
  redisDelFails : Bool
deriving DecidableEq, Repr

/-- The exceptions that can cross the manager's boundary.
`typeError` is the `TypeError` raised by `json.dump` writing text to a
binary-mode file; `codecError` models a `pickle`/`zlib` exception on
corrupt data; `computeError` is an error raised by the caller's own
compute function. -/
inductive CacheErr where
  | typeError : CacheErr
  | codecError : CacheErr
  | computeError (msg : String) : CacheErr
deriving DecidableEq, Repr

instance {ε α : Type} [DecidableEq ε] [DecidableEq α] :
    DecidableEq (Except ε α) := fun a b =>
  match a, b with
  | .ok x, .ok y => decidable_of_iff (x = y) (by simp)
  | .error x, .error y => decidable_of_iff (x = y) (by simp)
  | .ok _, .error _ => isFalse (by simp)
  | .error _, .ok _ => isFalse (by simp)

/-- `AdvancedCacheManager.__init__`: constructs the Redis client and
pings it inside `try/except redis.ConnectionError`; when the server is
unreachable the exception is caught, a warning logged, and
`self.redis_client = None`.  Construction never raises.  The memory
table starts empty and the cache directory is created. -/
def initManager (env : Env) : CacheState :=
  { memory := [], redisAvail := env.redisConnects, redis := [], disk := [] }

/-! ## Tier reads -/

/-- `AdvancedCacheManager.get_from_memory_cache(key)`: look the key up
in `memory_cache`; on an unexpired entry return the decompressed value,
on an expired entry delete it and return `None`, otherwise return
`None`.  The `_decompress_data` call is NOT wrapped in `try/except`, so
a decode failure on a corrupt entry raises (`codecError`). -/
def get_from_memory_cache (now : Nat) (st : CacheState) (key : String) :
    Except CacheErr Value × CacheState :=
  match alookup key st.memory with
  | some e =>
    if now < e.expiry then
      match decompress_data e.value with
      | some v => (.ok v, st)
      | Option.none => (.error .codecError, st)
    else
      (.ok .none, { st with memory := aerase key st.memory })
  | Option.none => (.ok .none, st)

/-- `AdvancedCacheManager.get_from_redis_cache(key)`: returns `None`
immediately when `self.redis_client` is `None`; otherwise performs
`get` and `_decompress_data` inside `try/except Exception`, so any
failure (transient network error or corrupt payload) is logged and
absorbed as `None`.  Redis expires entries server-side (`setex`), so an
entry past its expiry is simply not returned; the client state is never
mutated by a read. -/
def get_from_redis_cache (now : Nat) (env : Env) (st : CacheState) (key : String) :
    Value :=
  if st.redisAvail = false then .none
  else if env.redisGetFails then .none
  else
    match alookup key st.redis with
    | some e =>
      if now < e.expiry then
        if e.value ≠ [] then
          match decompress_data e.value with
          | some v => v
          | Option.none => .none
        else .none
      else .none
    | Option.none => .none

/-- `AdvancedCacheManager.get_from_disk_cache(key)`: if the key's file
exists, read and `json.load` it, return the decompressed value when
unexpired, delete the file when expired — all inside
`try/except Exception`, so an unreadable/corrupt file (in particular
the empty files left behind by the broken disk write) is logged and
absorbed as `None` without removal. -/
def get_from_disk_cache (now : Nat) (st : CacheState) (key : String) :
    Value × CacheState :=
  match alookup key st.disk with
  | Option.none => (.none, st)
  | some .empty => (.none, st)
  | some .corrupt => (.none, st)
  | some (.entry bs ex) =>
    if now < ex then
      match decompress_data bs with
      | some v => (v, st)
      | Option.none => (.none, st)
    else
      (.none, { st with disk := aerase key st.disk })

/-! ## Writes -/

/-- `AdvancedCacheManager.set_cache(key, value, ttl, layer)`: compress
once, then write to each tier selected by `layer`.  The memory write is
a plain dict assignment.  The Redis `setex` is wrapped in
`try/except`, so a transient failure is logged and absorbed.  The disk
write opens the key's file with `open(disk_path, 'wb')` — creating or
truncating it — and then calls `json.dump`, which writes `str` to the
binary-mode handle and therefore raises `TypeError`; the write is NOT
wrapped in `try/except`, so the error propagates and the truncated
empty file is left behind. -/
def set_cache (now : Nat) (env : Env) (st : CacheState) (key : String)
    (value : Value) (ttl : Nat) (layer : String) :
    Except CacheErr Unit × CacheState :=
  let compressed := compress_data value
  let st1 :=
    if layer = "memory" ∨ layer = "multi" then
      { st with memory := aset key ⟨compressed, now + ttl⟩ st.memory }
    else st
  let st2 :=
    if (layer = "redis" ∨ layer = "multi") ∧ st1.redisAvail then
      if env.redisSetFails then st1
      else { st1 with redis := aset key ⟨compressed, now + ttl⟩ st1.redis }
    else st1
  if layer = "disk" ∨ layer = "multi" then
    (.error .typeError, { st2 with disk := aset key .empty st2.disk })
  else
    (.ok (), st2)

/-! ## The cache-aside wrapper -/

/-- Result of one call through the decorated function: the value
returned (or exception raised), the state afterwards, and whether the
wrapped compute function was invoked (the spec's call counter). -/
structure CallResult where
  result : Except CacheErr Value
  state : CacheState
  computeInvoked : Bool
deriving Repr, DecidableEq

/-- The wrapper produced by `AdvancedCacheManager.cache(ttl, cache_none,
layer)` around a function `fn`, called with `(args, kwargs)`:
derive the key, probe memory then Redis then disk (each tier only when
enabled by `layer`, Redis only when a client exists), returning on the
first result that `is not None`; on a full miss invoke `fn` and, when
the result `is not None` or `cache_none` is set, store it through
`set_cache` before returning. -/
def cacheCall (now : Nat) (env : Env) (st : CacheState)
    (funcName : String) (args : List Value) (kwargs : List (String × Value))
    (fn : List Value → List (String × Value) → Except CacheErr Value)
    (ttl : Nat) (cacheNone : Bool) (layer : String) : CallResult :=
  let key := generate_cache_key funcName args kwargs
  let memStep :=
    if layer = "memory" ∨ layer = "multi" then get_from_memory_cache now st key
    else (Except.ok Value.none, st)
  match memStep with
  | (.error e, st1) => ⟨.error e, st1, false⟩
  | (.ok mv, st1) =>
    if mv ≠ Value.none then ⟨.ok mv, st1, false⟩
    else
      let rv :=
        if (layer = "redis" ∨ layer = "multi") ∧ st1.redisAvail then
          get_from_redis_cache now env st1 key
        else Value.none
      if rv ≠ Value.none then ⟨.ok rv, st1, false⟩
      else
        let diskStep :=
          if layer = "disk" ∨ layer = "multi" then get_from_disk_cache now st1 key
          else (Value.none, st1)
        match diskStep with
        | (dv, st2) =>
          if dv ≠ Value.none then ⟨.ok dv, st2, false⟩
          else
            match fn args kwargs with
            | .error e => ⟨.error e, st2, true⟩
            | .ok result =>
              if result ≠ Value.none ∨ cacheNone then
                match set_cache now env st2 key result ttl layer with
                | (.ok _, st3) => ⟨.ok result, st3, true⟩
                | (.error e, st3) => ⟨.error e, st3, true⟩
              else ⟨.ok result, st2, true⟩

/-! ## Invalidation -/

/-- `AdvancedCacheManager.invalidate_cache(key, layer)`: with a key,
delete it from each selected tier (`pop(key, None)`, Redis `delete`
inside `try/except`, and `os.remove` guarded by `os.path.exists`);
without a key, clear each selected tier entirely.  Never raises. -/
def invalidate_cache (env : Env) (st : CacheState) (key : Option String)
    (layer : String) : CacheState :=
  let st1 :=
    if layer = "memory" ∨ layer = "multi" then
      { st with memory := match key with
        | some k => aerase k st.memory
        | Option.none => [] }
    else st
  let st2 :=
    if (layer = "redis" ∨ layer = "multi") ∧ st1.redisAvail then
      if env.redisDelFails then st1
      else { st1 with redis := match key with
        | some k => aerase k st1.redis
        | Option.none => [] }
    else st1
  if layer = "disk" ∨ layer = "multi" then
    { st2 with disk := match key with
      | some k => aerase k st2.disk
      | Option.none => [] }
  else st2

example :
    (set_cache 100 ⟨true, false, false, false⟩ (initManager ⟨true, false, false, false⟩)
      "k" (.int 7) 60 "memory").1 = .ok () := by decide
example :
    (set_cache 100 ⟨true, false, false, false⟩ (initManager ⟨true, false, false, false⟩)
      "k" (.int 7) 60 "disk").1 = .error .typeError := by decide
example :
    (get_from_memory_cache 120
      (set_cache 100 ⟨true, false, false, false⟩ (initManager ⟨true, false, false, false⟩)
        "k" (.int 7) 60 "memory").2 "k").1 = .ok (.int 7) := by decide

/-! ## Helper facts for the claim theorems -/

/-- A healthy environment: Redis reachable, no transient faults. -/
def envOK : Env := ⟨true, false, false, false⟩

/-- Manager state right after construction against a healthy Redis. -/
def st0 : CacheState := initManager envOK

theorem alookup_mem {α : Type} {k : String} {l : List (String × α)} {v : α}
    (h : alookup k l = some v) : (k, v) ∈ l := by
  induction l with
  | nil => simp [alookup] at h
  | cons p rest ih =>
    obtain ⟨k2, w⟩ := p
    by_cases h2 : k2 = k
    · subst h2
      simp [alookup] at h
      subst h
      exact List.mem_cons_self _ _
    · simp [alookup, h2] at h
      exact List.mem_cons_of_mem _ (ih h)

/-- `set_cache` can raise only the disk write's `TypeError`. -/
theorem set_cache_error_typeError {now : Nat} {env : Env} {st : CacheState}
    {key : String} {value : Value} {ttl : Nat} {layer : String} {e : CacheErr}
    {st2 : CacheState}
    (h : set_cache now env st key value ttl layer = (.error e, st2)) :
    e = .typeError := by
  simp only [set_cache] at h
  split_ifs at h <;> simp_all

/-- Well-formedness of the in-memory table: every stored payload
decompresses.  This holds of every state the manager itself produces,
since memory entries are only written through `_compress_data`. -/
abbrev MemWF (st : CacheState) : Prop :=
  ∀ p ∈ st.memory, (decompress_data p.2.value).isSome = true

/-- Under a well-formed memory table the memory read never raises. -/
theorem memory_get_no_error (now : Nat) (st : CacheState) (key : String)
    (hwf : MemWF st) :
    ∃ v st2, get_from_memory_cache now st key = (.ok v, st2) := by
  simp only [get_from_memory_cache]
  cases hm : alookup key st.memory with
  | none => exact ⟨.none, st, rfl⟩
  | some e =>
    by_cases hexp : now < e.expiry
    · have hsome := hwf (key, e) (alookup_mem hm)
      cases hd : decompress_data e.value with
      | none => rw [hd] at hsome; simp at hsome
      | some v => exact ⟨v, st, by simp [hexp, hd]⟩
    · exact ⟨.none, { st with memory := aerase key st.memory }, by simp [hexp]⟩

/-! ## C5 — codec round-trip law -/

/-- C5: for every serializable value `v`, decoding (decompress then
deserialize) the result of encoding `v` (serialize then compress)
yields a value equal to `v`: `_decompress_data (_compress_data v) = v`. -/
theorem c5_codec_round_trip (v : Value) :
    decompress_data (compress_data v) = some v := by
  simp [compress_data, decompress_data, zlibDecompress_compress, pickleLoads_dumps]

/-! ## C6 — tier set-then-get round-trip

The disk tier breaks the round-trip: `set_cache` opens the file with
`open(disk_path, 'wb')` and then calls `json.dump`, which writes `str`
to a binary-mode handle and raises `TypeError`.  The write therefore
always fails, leaving a truncated empty file, and the subsequent
`get_from_disk_cache` is a miss.  The memory tier round-trips fine. -/

/-- C6: evaluating the code at the failing input.  Setting
`("k", 7, ttl 60)` in the disk tier raises `TypeError` and leaves an
empty file, and the immediate disk get (well before expiry) returns the
miss sentinel `None` instead of `7`; the same round-trip through the
memory tier does return `7`. -/
theorem c6_disk_round_trip_fails :
    (set_cache 100 envOK st0 "k" (.int 7) 60 "disk").1 = .error .typeError
    ∧ (get_from_disk_cache 100 (set_cache 100 envOK st0 "k" (.int 7) 60 "disk").2 "k").1
        = Value.none
    ∧ alookup "k" (set_cache 100 envOK st0 "k" (.int 7) 60 "disk").2.disk
        = some DiskFile.empty
    ∧ (get_from_memory_cache 100 (set_cache 100 envOK st0 "k" (.int 7) 60 "memory").2 "k").1
        = .ok (.int 7) := by decide

/-! ## C4 — tier-policy validation

The code accepts `'memory'`, `'redis'`, `'disk'`, `'multi'` — note
`'redis'`, not the spec's `'remote'` — and performs NO validation: any
other string simply fails every `layer in [...]` membership test, so
all tier probes and writes are silently skipped and no error is
raised. -/

/-- C4 counterexample: with the unknown policy string `"bogus"` (and
even with the spec's own accepted value `"remote"`), `set_cache`
returns normally and leaves the state untouched, and the wrapper
quietly recomputes on every call — no configuration error anywhere. -/
theorem c4_tier_validation_counterexample :
    set_cache 100 envOK st0 "k" (.int 1) 60 "bogus" = (.ok (), st0)
    ∧ set_cache 100 envOK st0 "k" (.int 1) 60 "remote" = (.ok (), st0)
    ∧ (cacheCall 100 envOK st0 "f" [] [] (fun _ _ => .ok (.int 2)) 60 false "bogus")
        = ⟨.ok (.int 2), st0, true⟩ := by decide

/-- C4 amended: the accepted tier-policy values are `"memory"`,
`"redis"`, `"disk"` and `"multi"`; for every call passing any other
value the operation silently performs no caching — `set_cache` is a
no-op returning normally, and the wrapper skips every tier, always
invokes the compute function, and returns its result unchanged. -/
theorem c4_tier_policy_amended (now : Nat) (env : Env) (st : CacheState)
    (k : String) (v : Value) (ttl : Nat) (layer : String)
    (h1 : layer ≠ "memory") (h2 : layer ≠ "redis") (h3 : layer ≠ "disk")
    (h4 : layer ≠ "multi") :
    set_cache now env st k v ttl layer = (.ok (), st)
    ∧ ∀ funcName args kwargs fn cacheNone,
        cacheCall now env st funcName args kwargs fn ttl cacheNone layer
          = ⟨fn args kwargs, st, true⟩ := by
  constructor
  · simp [set_cache, h1, h2, h3, h4]
  · intro funcName args kwargs fn cacheNone
    cases hf : fn args kwargs with
    | error e => simp [cacheCall, h1, h2, h3, h4, hf]
    | ok r =>
      by_cases hr : r = Value.none
      · subst hr
        by_cases hcn : cacheNone
        · simp [cacheCall, h1, h2, h3, h4, hf, hcn, set_cache]
        · simp [cacheCall, h1, h2, h3, h4, hf, hcn]
      · simp [cacheCall, h1, h2, h3, h4, hf, hr, set_cache]

/-- C4 amended, witnessed at the spec's own tier name `"remote"`. -/
theorem c4_tier_policy_amended_witness :
    set_cache 5 envOK st0 "k" (.int 3) 60 "remote" = (.ok (), st0)
    ∧ cacheCall 5 envOK st0 "f" [] [] (fun _ _ => .ok (.int 9)) 60 false "remote"
        = ⟨.ok (.int 9), st0, true⟩ :=
  ⟨(c4_tier_policy_amended 5 envOK st0 "k" (.int 3) 60 "remote"
      (by decide) (by decide) (by decide) (by decide)).1,
   (c4_tier_policy_amended 5 envOK st0 "k" (.int 3) 60 "remote"
      (by decide) (by decide) (by decide) (by decide)).2
     "f" [] [] (fun _ _ => .ok (.int 9)) false⟩

/-! ## C7 — expiry with lazy deletion (memory and disk tiers) -/

/-- C7: for a key stored with expiry `e` in the memory or disk tier, a
get at `now ≥ e` returns the miss sentinel `None` and removes the entry
from that tier's backing store (so the key is absent afterwards), while
a get at `now < e` returns the decoded value and leaves the state
untouched. -/
theorem c7_expiry_lazy_deletion (now : Nat) (st : CacheState) (k : String) :
    (∀ e v, alookup k st.memory = some e → decompress_data e.value = some v →
      ((e.expiry ≤ now →
          get_from_memory_cache now st k
            = (.ok .none, { st with memory := aerase k st.memory })
          ∧ alookup k (aerase k st.memory) = Option.none)
       ∧ (now < e.expiry →
          get_from_memory_cache now st k = (.ok v, st))))
    ∧ (∀ bs ex v, alookup k st.disk = some (.entry bs ex) →
        decompress_data bs = some v →
      ((ex ≤ now →
          get_from_disk_cache now st k
            = (.none, { st with disk := aerase k st.disk })
          ∧ alookup k (aerase k st.disk) = Option.none)
       ∧ (now < ex →
          get_from_disk_cache now st k = (v, st)))) := by
  constructor
  · intro e v he hv
    constructor
    · intro hexp
      refine ⟨?_, alookup_aerase_self k st.memory⟩
      simp [get_from_memory_cache, he, show ¬ (now < e.expiry) by omega]
    · intro hexp
      simp [get_from_memory_cache, he, hv, hexp]
  · intro bs ex v hd hv
    constructor
    · intro hexp
      refine ⟨?_, alookup_aerase_self k st.disk⟩
      simp [get_from_disk_cache, hd, show ¬ (now < ex) by omega]
    · intro hexp
      simp [get_from_disk_cache, hd, hv, hexp]

/-- A state holding one live memory entry and one live disk entry, both
expiring at time 100. -/
def stC7 : CacheState :=
  { memory := [("k", ⟨compress_data (.int 5), 100⟩)],
    redisAvail := true, redis := [],
    disk := [("d", .entry (compress_data (.str "x")) 100)] }

/-- C7 witnessed on `stC7`: hits at time 50, lazy deletions at time 100. -/
theorem c7_expiry_lazy_deletion_witness :
    get_from_memory_cache 50 stC7 "k" = (.ok (.int 5), stC7)
    ∧ (get_from_memory_cache 100 stC7 "k"
        = (.ok .none, { stC7 with memory := aerase "k" stC7.memory })
       ∧ alookup "k" (aerase "k" stC7.memory) = Option.none)
    ∧ get_from_disk_cache 50 stC7 "d" = (.str "x", stC7)
    ∧ (get_from_disk_cache 100 stC7 "d"
        = (.none, { stC7 with disk := aerase "d" stC7.disk })
       ∧ alookup "d" (aerase "d" stC7.disk) = Option.none) :=
  ⟨((c7_expiry_lazy_deletion 50 stC7 "k").1 ⟨compress_data (.int 5), 100⟩ (.int 5)
      (by decide) (by decide)).2 (by decide),
   ((c7_expiry_lazy_deletion 100 stC7 "k").1 ⟨compress_data (.int 5), 100⟩ (.int 5)
      (by decide) (by decide)).1 (by decide),
   ((c7_expiry_lazy_deletion 50 stC7 "d").2 (compress_data (.str "x")) 100 (.str "x")
      (by decide) (by decide)).2 (by decide),
   ((c7_expiry_lazy_deletion 100 stC7 "d").2 (compress_data (.str "x")) 100 (.str "x")
      (by decide) (by decide)).1 (by decide)⟩

/-! ## C9 — invalidation of a single key -/

/-- C9: `invalidate_cache(k, layer)` never raises (it is a total
function of the state); invalidating a key absent from every tier
leaves the state exactly unchanged; and invalidating a present key
removes only that key — every other key's binding in every tier is
untouched, and under `layer = "multi"` (with the Redis client present
and the delete not transiently failing) the key is gone from all three
tiers. -/
theorem c9_invalidate_frame (env : Env) (st : CacheState) (k : String)
    (layer : String) :
    (alookup k st.memory = Option.none ∧ alookup k st.redis = Option.none
      ∧ alookup k st.disk = Option.none →
      invalidate_cache env st (some k) layer = st)
    ∧ (∀ k2, k2 ≠ k →
        alookup k2 (invalidate_cache env st (some k) layer).memory
          = alookup k2 st.memory
        ∧ alookup k2 (invalidate_cache env st (some k) layer).redis
          = alookup k2 st.redis
        ∧ alookup k2 (invalidate_cache env st (some k) layer).disk
          = alookup k2 st.disk)
    ∧ (layer = "multi" → st.redisAvail = true → env.redisDelFails = false →
        alookup k (invalidate_cache env st (some k) layer).memory = Option.none
        ∧ alookup k (invalidate_cache env st (some k) layer).redis = Option.none
        ∧ alookup k (invalidate_cache env st (some k) layer).disk = Option.none) := by
  refine ⟨?_, ?_, ?_⟩
  · rintro ⟨hm, hr, hd⟩
    obtain ⟨mem, avail, red, dsk⟩ := st
    simp only [invalidate_cache]
    split_ifs <;>
      simp_all [aerase_absent hm, aerase_absent hr, aerase_absent hd]
  · intro k2 hk2
    simp only [invalidate_cache]
    split_ifs <;> simp_all [alookup_aerase_ne hk2]
  · intro hl hav hdel
    subst hl
    simp [invalidate_cache, hav, hdel, alookup_aerase_self]

/-- A state with the key `"a"` present in all three tiers. -/
def stC9 : CacheState :=
  { memory := [("a", ⟨compress_data (.int 1), 100⟩)],
    redisAvail := true,
    redis := [("a", ⟨compress_data (.int 1), 100⟩)],
    disk := [("a", .entry (compress_data (.int 1)) 100)] }

/-- C9 witnessed on `stC9`: invalidating the absent key `"x"` is a
no-op, it leaves the present key `"a"` untouched, and invalidating
`"a"` removes it from all tiers. -/
theorem c9_invalidate_frame_witness :
    invalidate_cache envOK stC9 (some "x") "multi" = stC9
    ∧ (alookup "a" (invalidate_cache envOK stC9 (some "x") "multi").memory
        = alookup "a" stC9.memory
       ∧ alookup "a" (invalidate_cache envOK stC9 (some "x") "multi").redis
        = alookup "a" stC9.redis
       ∧ alookup "a" (invalidate_cache envOK stC9 (some "x") "multi").disk
        = alookup "a" stC9.disk)
    ∧ (alookup "a" (invalidate_cache envOK stC9 (some "a") "multi").memory
        = Option.none
       ∧ alookup "a" (invalidate_cache envOK stC9 (some "a") "multi").redis
        = Option.none
       ∧ alookup "a" (invalidate_cache envOK stC9 (some "a") "multi").disk
        = Option.none) :=
  ⟨(c9_invalidate_frame envOK stC9 "x" "multi").1 ⟨by decide, by decide, by decide⟩,
   (c9_invalidate_frame envOK stC9 "x" "multi").2.1 "a" (by decide),
   (c9_invalidate_frame envOK stC9 "a" "multi").2.2 rfl (by decide) (by decide)⟩

/-! ## C10 — per-key isolation of writes and reads -/

/-- C10: for distinct keys `k ≠ k2`, a `set_cache` on `k` (whether it
returns normally or raises the disk `TypeError`) leaves the binding of
`k2` unchanged in every tier; a memory get on `k` can change only the
memory table (deleting `k` when expired) and preserves `k2`'s binding
and the other tiers; a disk get on `k` likewise preserves `k2`'s
binding and the other tiers; a Redis get mutates no manager state at
all (it returns only a value). -/
theorem c10_per_key_isolation (now : Nat) (env : Env) (st : CacheState)
    (k k2 : String) (v : Value) (ttl : Nat) (layer : String) (h : k2 ≠ k) :
    (alookup k2 (set_cache now env st k v ttl layer).2.memory = alookup k2 st.memory
     ∧ alookup k2 (set_cache now env st k v ttl layer).2.redis = alookup k2 st.redis
     ∧ alookup k2 (set_cache now env st k v ttl layer).2.disk = alookup k2 st.disk)
    ∧ (alookup k2 (get_from_memory_cache now st k).2.memory = alookup k2 st.memory
       ∧ (get_from_memory_cache now st k).2.redis = st.redis
       ∧ (get_from_memory_cache now st k).2.disk = st.disk)
    ∧ (alookup k2 (get_from_disk_cache now st k).2.disk = alookup k2 st.disk
       ∧ (get_from_disk_cache now st k).2.memory = st.memory
       ∧ (get_from_disk_cache now st k).2.redis = st.redis) := by
  refine ⟨?_, ?_, ?_⟩
  · simp only [set_cache]
    split_ifs <;> simp_all [alookup_aset_ne h]
  · simp only [get_from_memory_cache]
    cases hm : alookup k st.memory with
    | none => simp
    | some e =>
      by_cases hexp : now < e.expiry
      · cases hd : decompress_data e.value <;> simp [hexp, hd]
      · simp [hexp, alookup_aerase_ne h]
  · simp only [get_from_disk_cache]
    cases hd : alookup k st.disk with
    | none => simp
    | some f =>
      cases f with
      | empty => simp
      | corrupt => simp
      | entry bs ex =>
        by_cases hexp : now < ex
        · cases hv : decompress_data bs <;> simp [hexp, hv]
        · simp [hexp, alookup_aerase_ne h]

/-- C10 witnessed on `stC9` (key `"a"` present everywhere): writing and
reading the distinct key `"b"` leaves `"a"`'s bindings unchanged. -/
theorem c10_per_key_isolation_witness :
    (alookup "a" (set_cache 50 envOK stC9 "b" (.int 2) 60 "multi").2.memory
       = alookup "a" stC9.memory
     ∧ alookup "a" (set_cache 50 envOK stC9 "b" (.int 2) 60 "multi").2.redis
       = alookup "a" stC9.redis
     ∧ alookup "a" (set_cache 50 envOK stC9 "b" (.int 2) 60 "multi").2.disk
       = alookup "a" stC9.disk)
    ∧ (alookup "a" (get_from_memory_cache 50 stC9 "b").2.memory
        = alookup "a" stC9.memory
       ∧ (get_from_memory_cache 50 stC9 "b").2.redis = stC9.redis
       ∧ (get_from_memory_cache 50 stC9 "b").2.disk = stC9.disk)
    ∧ (alookup "a" (get_from_disk_cache 50 stC9 "b").2.disk
        = alookup "a" stC9.disk
       ∧ (get_from_disk_cache 50 stC9 "b").2.memory = stC9.memory
       ∧ (get_from_disk_cache 50 stC9 "b").2.redis = stC9.redis) :=
  c10_per_key_isolation 50 envOK stC9 "b" "a" (.int 2) 60 "multi" (by decide)

/-! ## C1 — key-derivation determinism

`_generate_cache_key` hashes `pickle.dumps((args, kwargs))`, and CPython
serializes dict entries in insertion order, so two logically equal
kwargs mappings supplied in different insertion orders produce
different byte streams and hence different SHA-256 keys.  Determinism
does hold for a fixed insertion order (the key is a pure function of
the operation name, the argument list, and the ordered kwargs
sequence); sorting the kwargs by key restores full determinism. -/

/-- C1 counterexample: the same logical kwargs mapping
`{a: 1, b: 2}`, supplied in the two insertion orders, yields two
different cache keys for the same operation and positional
arguments. -/
theorem c1_key_order_counterexample :
    generate_cache_key "f" [] [("a", .int 1), ("b", .int 2)]
      ≠ generate_cache_key "f" [] [("b", .int 2), ("a", .int 1)] := by decide

/-- Two entry lists that are permutations of each other and both have
strictly sorted keys are equal. -/
theorem sorted_perm_eq : ∀ (l1 l2 : List (String × Value)),
    l1.Perm l2 → (l1.map Prod.fst).Sorted (· < ·) →
    (l2.map Prod.fst).Sorted (· < ·) → l1 = l2 := by
  intro l1
  induction l1 with
  | nil =>
    intro l2 hp _ _
    exact (hp.symm.eq_nil).symm
  | cons p t1 ih =>
    intro l2 hp h1 h2
    cases l2 with
    | nil =>
      have := hp.eq_nil
      simp at this
    | cons q t2 =>
      have hpq : p = q := by
        by_contra hne
        have hpmem : p ∈ q :: t2 := hp.mem_iff.mp (List.mem_cons_self p t1)
        have hqmem : q ∈ p :: t1 := hp.symm.mem_iff.mp (List.mem_cons_self q t2)
        have hp2 : p ∈ t2 := by
          rcases List.mem_cons.mp hpmem with h | h
          · exact absurd h hne
          · exact h
        have hq1 : q ∈ t1 := by
          rcases List.mem_cons.mp hqmem with h | h
          · exact absurd h.symm hne
          · exact h
        have hlt1 : p.1 < q.1 :=
          (List.sorted_cons.mp h1).1 q.1 (List.mem_map_of_mem Prod.fst hq1)
        have hlt2 : q.1 < p.1 :=
          (List.sorted_cons.mp h2).1 p.1 (List.mem_map_of_mem Prod.fst hp2)
        exact absurd hlt1 (lt_asymm hlt2)
      subst hpq
      rw [ih t2 hp.cons_inv (List.sorted_cons.mp h1).2 (List.sorted_cons.mp h2).2]

/-- C1 amended: the derived key is a pure function of the operation
name, the positional arguments, and the kwargs sequence in its
insertion order; two calls whose kwargs agree as insertion-ordered
sequences — in particular any two logically equal kwargs mappings both
supplied sorted by key — always produce the same key.  (Different
insertion orders of the same mapping may produce different keys, per
the counterexample.) -/
theorem c1_key_determinism_amended (funcName : String) (args : List Value)
    (kw1 kw2 : List (String × Value)) (hp : kw1.Perm kw2)
    (h1 : (kw1.map Prod.fst).Sorted (· < ·))
    (h2 : (kw2.map Prod.fst).Sorted (· < ·)) :
    generate_cache_key funcName args kw1 = generate_cache_key funcName args kw2 := by
  rw [sorted_perm_eq kw1 kw2 hp h1 h2]

/-- C1 amended, witnessed at the sorted kwargs sequence
`[a = 1, b = 2]`. -/
theorem c1_key_determinism_amended_witness :
    ([(("a" : String), Value.int 1), ("b", Value.int 2)].Perm
      [(("a" : String), Value.int 1), ("b", Value.int 2)])
    ∧ (([("a", Value.int 1), ("b", Value.int 2)].map
          (Prod.fst (α := String) (β := Value))).Sorted (· < ·))
    ∧ generate_cache_key "f" [] [("a", .int 1), ("b", .int 2)]
        = generate_cache_key "f" [] [("a", .int 1), ("b", .int 2)] :=
  ⟨List.Perm.refl _,
   by simp [List.sorted_cons, String.lt_iff_toList_lt]; decide,
   c1_key_determinism_amended "f" [] _ _ (List.Perm.refl _)
     (by simp [List.sorted_cons, String.lt_iff_toList_lt]; decide)
     (by simp [List.sorted_cons, String.lt_iff_toList_lt]; decide)⟩

/-! ## C2 — error propagation policy

The Redis get/set and the disk read are wrapped in `try/except` and
absorbed, but the disk write in `set_cache` is not guarded at all — and
in fact always raises (`json.dump` into a binary-mode file), so with
`layer` = `"disk"` or `"multi"` the wrapper propagates a tier failure
to the caller even when the compute function succeeded. -/

/-- C2 counterexample: on a fresh manager, a wrapper call with the
default `"multi"` policy whose compute function succeeds with `16`
raises the disk tier's `TypeError` to the caller — a tier set failure
is not absorbed. -/
theorem c2_error_propagation_counterexample :
    (cacheCall 100 envOK st0 "f" [] [] (fun _ _ => .ok (.int 16))
        60 false "multi").result = .error .typeError := by decide

/-- With the disk tier selected, `set_cache` always raises the disk
write's `TypeError`. -/
theorem set_cache_disk_error (now : Nat) (env : Env) (st : CacheState)
    (key : String) (v : Value) (ttl : Nat) {layer : String}
    (h : layer = "disk" ∨ layer = "multi") :
    ∃ st2, set_cache now env st key v ttl layer = (.error .typeError, st2) := by
  simp only [set_cache]
  rw [if_pos h]
  exact ⟨_, rfl⟩

/-- Without the disk tier, `set_cache` returns normally. -/
theorem set_cache_no_disk_ok (now : Nat) (env : Env) (st : CacheState)
    (key : String) (v : Value) (ttl : Nat) {layer : String}
    (h : ¬ (layer = "disk" ∨ layer = "multi")) :
    ∃ st2, set_cache now env st key v ttl layer = (.ok (), st2) := by
  simp only [set_cache]
  rw [if_neg h]
  exact ⟨_, rfl⟩

/-- `set_cache` raises exactly when the disk tier is selected, and then
always the `TypeError`. -/
theorem set_cache_fst_error (now : Nat) (env : Env) (st : CacheState)
    (key : String) (v : Value) (ttl : Nat) (layer : String) (e : CacheErr) :
    (set_cache now env st key v ttl layer).1 = .error e ↔
      e = .typeError ∧ (layer = "disk" ∨ layer = "multi") := by
  simp only [set_cache]
  split_ifs <;> simp_all <;> exact eq_comm

/-- C2 amended: for every call to the wrapper on a state whose memory
table is well-formed, any error that reaches the caller is either the
disk tier's write `TypeError` (raised by `set_cache` when the disk tier
is enabled) or an error raised by the caller's own compute function;
remote get/set failures and disk read failures are absorbed as a miss
on read and a no-op on write. -/
theorem c2_error_propagation_amended (now : Nat) (env : Env) (st : CacheState)
    (funcName : String) (args : List Value) (kwargs : List (String × Value))
    (fn : List Value → List (String × Value) → Except CacheErr Value)
    (ttl : Nat) (cacheNone : Bool) (layer : String) (e : CacheErr)
    (hwf : MemWF st)
    (herr : (cacheCall now env st funcName args kwargs fn ttl cacheNone layer).result
      = .error e) :
    e = .typeError ∨ fn args kwargs = .error e := by
  simp only [cacheCall] at herr
  split at herr
  · -- the memory probe raised: impossible on a well-formed table
    rename_i e1 st1 heq
    by_cases hmem : layer = "memory" ∨ layer = "multi"
    · obtain ⟨v, st2, hget⟩ := memory_get_no_error now st
        (generate_cache_key funcName args kwargs) hwf
      rw [if_pos hmem, hget] at heq
      simp at heq
    · rw [if_neg hmem] at heq
      simp at heq
  · -- the memory probe returned a value
    rename_i mv st1 heq
    clear heq
    by_cases hmv : mv = Value.none
    case neg =>
      rw [if_pos hmv] at herr
      simp at herr
    case pos =>
      rw [if_neg (not_not_intro hmv)] at herr
      by_cases hrv : (if (layer = "redis" ∨ layer = "multi") ∧ st1.redisAvail = true
          then get_from_redis_cache now env st1 (generate_cache_key funcName args kwargs)
          else Value.none) = Value.none
      case neg =>
        rw [if_pos hrv] at herr
        simp at herr
      case pos =>
        rw [if_neg (not_not_intro hrv)] at herr
        by_cases hdv : (if layer = "disk" ∨ layer = "multi"
            then get_from_disk_cache now st1 (generate_cache_key funcName args kwargs)
            else (Value.none, st1)).1 = Value.none
        case neg =>
          rw [if_pos hdv] at herr
          simp at herr
        case pos =>
          rw [if_neg (not_not_intro hdv)] at herr
          cases hf : fn args kwargs with
          | error e2 =>
            rw [hf] at herr
            simp at herr
            right
            rw [herr]
          | ok r =>
            rw [hf] at herr
            simp only [] at herr
            by_cases hcn : ¬ r = Value.none ∨ cacheNone = true
            case neg =>
              rw [if_neg hcn] at herr
              simp at herr
            case pos =>
              rw [if_pos hcn] at herr
              by_cases hlayer : layer = "disk" ∨ layer = "multi"
              case pos =>
                obtain ⟨st3, hsc⟩ := set_cache_disk_error now env
                  (if layer = "disk" ∨ layer = "multi"
                    then get_from_disk_cache now st1 (generate_cache_key funcName args kwargs)
                    else (Value.none, st1)).2
                  (generate_cache_key funcName args kwargs) r ttl hlayer
                rw [hsc] at herr
                simp at herr
                left
                first
                | exact herr
                | exact herr.symm
              case neg =>
                obtain ⟨st3, hsc⟩ := set_cache_no_disk_ok now env
                  (if layer = "disk" ∨ layer = "multi"
                    then get_from_disk_cache now st1 (generate_cache_key funcName args kwargs)
                    else (Value.none, st1)).2
                  (generate_cache_key funcName args kwargs) r ttl hlayer
                rw [hsc] at herr
                simp at herr

/-- The compute function used in the C2 witness: it always raises. -/
def fnBoom : List Value → List (String × Value) → Except CacheErr Value :=
  fun _ _ => .error (.computeError "boom")

/-- C2 amended, witnessed: the memory-only wrapper call around an
always-raising compute function propagates exactly the compute error. -/
theorem c2_error_propagation_amended_witness :
    MemWF st0
    ∧ (cacheCall 100 envOK st0 "f" [] [] fnBoom 60 false "memory").result
        = .error (.computeError "boom")
    ∧ (CacheErr.computeError "boom" = CacheErr.typeError
        ∨ fnBoom [] [] = .error (.computeError "boom")) :=
  ⟨by decide, by decide,
   c2_error_propagation_amended 100 envOK st0 "f" [] [] fnBoom 60 false "memory"
     (.computeError "boom") (by decide) (by decide)⟩

/-! ## C3 — hit short-circuit

The wrapper signals a miss with `None`, so a stored `None` (written via
`cache_none=True`) decompresses to `None`, fails every
`if result is not None` test, and is treated as a miss: the compute
function runs again.  For any cached value other than `None` the
short-circuit works as claimed. -/

/-- The compute function used for C3: it returns `None`. -/
def fnNone : List Value → List (String × Value) → Except CacheErr Value :=
  fun _ _ => .ok .none

/-- The state after caching `None` for `f()` with `cache_none=True` in
the memory tier at time 100 with ttl 60. -/
def stC3 : CacheState :=
  (cacheCall 100 envOK st0 "f" [] [] fnNone 60 true "memory").state

/-- C3 counterexample: after `cache_none=True` stored `None`, the entry
for the derived key is present and unexpired (expiry 160, probed again
at time 100) and holds the encoded `None` — yet the second wrapper call
invokes the compute function again instead of returning the cached
value without computing. -/
theorem c3_hit_short_circuit_counterexample :
    alookup (generate_cache_key "f" [] []) stC3.memory
      = some ⟨compress_data Value.none, 160⟩
    ∧ decompress_data (compress_data Value.none) = some Value.none
    ∧ (cacheCall 100 envOK stC3 "f" [] [] fnNone 60 true "memory").computeInvoked
        = true := by decide

/-- C3 amended: when the first enabled tier (probed in the fixed order
memory, then Redis, then disk) holds an unexpired entry for the derived
key whose stored value is NOT `None`, the wrapper returns that value
immediately, does not invoke the compute function, and leaves the state
unchanged; an entry whose stored value is `None` (as written by
`cache_none`) is treated as a miss instead. -/
theorem c3_hit_short_circuit_amended (now : Nat) (env : Env) (st : CacheState)
    (funcName : String) (args : List Value) (kwargs : List (String × Value))
    (fn : List Value → List (String × Value) → Except CacheErr Value)
    (ttl : Nat) (cacheNone : Bool) (layer : String) (v : Value)
    (hv : v ≠ Value.none) :
    ((layer = "memory" ∨ layer = "multi") →
      ∀ e, alookup (generate_cache_key funcName args kwargs) st.memory = some e →
      now < e.expiry → decompress_data e.value = some v →
      cacheCall now env st funcName args kwargs fn ttl cacheNone layer
        = ⟨.ok v, st, false⟩)
    ∧ ((layer = "redis" ∨ layer = "multi") →
      alookup (generate_cache_key funcName args kwargs) st.memory = Option.none →
      st.redisAvail = true → env.redisGetFails = false →
      ∀ e, alookup (generate_cache_key funcName args kwargs) st.redis = some e →
      now < e.expiry → e.value ≠ [] → decompress_data e.value = some v →
      cacheCall now env st funcName args kwargs fn ttl cacheNone layer
        = ⟨.ok v, st, false⟩)
    ∧ ((layer = "disk" ∨ layer = "multi") →
      alookup (generate_cache_key funcName args kwargs) st.memory = Option.none →
      alookup (generate_cache_key funcName args kwargs) st.redis = Option.none →
      ∀ bs ex,
        alookup (generate_cache_key funcName args kwargs) st.disk
          = some (.entry bs ex) →
      now < ex → decompress_data bs = some v →
      cacheCall now env st funcName args kwargs fn ttl cacheNone layer
        = ⟨.ok v, st, false⟩) := by
  refine ⟨?_, ?_, ?_⟩
  · intro hl e he hexp hd
    have hmem : get_from_memory_cache now st (generate_cache_key funcName args kwargs)
        = (.ok v, st) := by
      simp [get_from_memory_cache, he, hexp, hd]
    simp only [cacheCall]
    rw [if_pos hl, hmem]
    simp [hv]
  · intro hl hm hav hgf e he hexp hne hd
    have hmemStep : (if layer = "memory" ∨ layer = "multi"
        then get_from_memory_cache now st (generate_cache_key funcName args kwargs)
        else (Except.ok Value.none, st)) = (Except.ok Value.none, st) := by
      split_ifs with h
      · simp [get_from_memory_cache, hm]
      · rfl
    have hred : get_from_redis_cache now env st (generate_cache_key funcName args kwargs)
        = v := by
      simp [get_from_redis_cache, hav, hgf, he, hexp, hne, hd]
    simp only [cacheCall]
    rw [hmemStep]
    simp [hl, hav, hred, hv]
  · intro hl hm hr bs ex hd hexp hdec
    have hmemStep : (if layer = "memory" ∨ layer = "multi"
        then get_from_memory_cache now st (generate_cache_key funcName args kwargs)
        else (Except.ok Value.none, st)) = (Except.ok Value.none, st) := by
      split_ifs with h
      · simp [get_from_memory_cache, hm]
      · rfl
    have hredv : (if (layer = "redis" ∨ layer = "multi") ∧ st.redisAvail = true
        then get_from_redis_cache now env st (generate_cache_key funcName args kwargs)
        else Value.none) = Value.none := by
      split_ifs with h
      · simp [get_from_redis_cache, hr]
      · rfl
    have hdisk : get_from_disk_cache now st (generate_cache_key funcName args kwargs)
        = (v, st) := by
      simp [get_from_disk_cache, hd, hexp, hdec]
    simp only [cacheCall]
    rw [hmemStep]
    simp [hl, hredv, hdisk, hv]

/-- A state holding the non-`None` value `16` for `f()` in the memory
tier, expiring at 160. -/
def stC3W : CacheState :=
  { memory := [(generate_cache_key "f" [] [], ⟨compress_data (.int 16), 160⟩)],
    redisAvail := true, redis := [], disk := [] }

/-- C3 amended, witnessed: an unexpired memory entry holding `16` is
returned at once and the compute function is not invoked. -/
theorem c3_hit_short_circuit_amended_witness :
    cacheCall 100 envOK stC3W "f" [] [] fnNone 60 false "multi"
      = ⟨.ok (.int 16), stC3W, false⟩ :=
  (c3_hit_short_circuit_amended 100 envOK stC3W "f" [] [] fnNone 60 false "multi"
      (.int 16) (by decide)).1 (by decide)
    ⟨compress_data (.int 16), 160⟩ (by decide) (by decide) (by decide)

/-! ## C8 — fail-open on remote unavailability

Construction with an unreachable Redis host does not raise: the
`redis.ConnectionError` from the ping is caught and the client set to
`None` for the rest of the process lifetime, and every remote get
returns the miss sentinel without contacting the service.  But the
claim's last part fails: a `get_or_compute` with the default `"multi"`
policy that falls through to recomputation then raises the disk write's
`TypeError` (`json.dump` into a binary-mode file, unguarded), so the
call does not succeed; only policies avoiding the disk tier survive. -/

/-- The environment of an unreachable Redis host. -/
def envDown : Env := ⟨false, false, false, false⟩

/-- Manager constructed against the unreachable host. -/
def stDown : CacheState := initManager envDown

/-- C8: evaluating the code at the failing input.  Construction marks
the remote tier unavailable without raising; the remote get is a miss
without contacting the service; but the wrapper call with the default
`"multi"` policy (`square(4)`, computing `16`) raises `TypeError`
instead of succeeding — while the same call under the `"memory"` policy
does succeed with `16`. -/
theorem c8_fail_open_divergence :
    stDown.redisAvail = false
    ∧ get_from_redis_cache 100 envDown stDown "k" = Value.none
    ∧ (cacheCall 100 envDown stDown "square" [.int 4] []
         (fun args _ => match args with
           | [.int n] => .ok (.int (n * n))
           | _ => .error (.computeError "bad")) 60 false "multi").result
        = .error .typeError
    ∧ (cacheCall 100 envDown stDown "square" [.int 4] []
         (fun args _ => match args with
           | [.int n] => .ok (.int (n * n))
           | _ => .error (.computeError "bad")) 60 false "memory").result
        = .ok (.int 16) := by decide
